import Mathlib

/-!
# Verification of the chess-vision trainer core (`src/machines/gameMachine.ts`)

Shallow embedding of the game machine's pure helpers (square colors, knight /
bishop reachability, round generation, outcome classification, accuracy
scoring) and of the XState session controller as an explicit step function on
an enumerated state type, with randomness modelled as an explicit stream
`rng : Nat -> Nat` (each call to `Math.random()` consumes one stream position;
a draw `Math.floor(Math.random() * n)` is modelled as `rng k % n`) together
with a cursor threaded through the computation.  Unbounded retry loops in the
source (`generatePositionsForRound`'s duplicate-avoidance loops) are given an
explicit fuel parameter and return `Option`.
-/

namespace GameMachine

/-- `type SquareColor = "light" | "dark"`. -/
inductive SquareColor where
  | light
  | dark
deriving DecidableEq, Repr

/-- `type TrialOutcome = "hit" | "falseAlarm" | "correctRejection" | "miss"`. -/
inductive TrialOutcome where
  | hit
  | falseAlarm
  | correctRejection
  | miss
deriving DecidableEq, Repr

/-- The only user-response value, the string `"match"` in the source
(`userResponse?: "match"`); named `matchResponse` because `match` is a Lean
keyword. -/
inductive Response where
  | matchResponse
deriving DecidableEq, Repr

/-- `type Piece = "knight" | "bishop"` (the union used by
`generatePositionsForRound` / `getReachablePositions` / `isReachable`). -/
inductive Piece where
  | knight
  | bishop
deriving DecidableEq, Repr

/-- The files `"abcdefgh"` of `generateSquareColors`. -/
def files : List Char := ['a', 'b', 'c', 'd', 'e', 'f', 'g', 'h']

/-- The ranks `"12345678"` of `generateSquareColors`. -/
def ranks : List Char := ['1', '2', '3', '4', '5', '6', '7', '8']

/-- `generateSquareColors`: iterates files (outer) then ranks (inner), and maps
each square name to `dark` when `fileIndex + rankIndex` is even, `light`
otherwise (as the source computes; its comment has the colors backwards). -/
def generateSquareColors : List (String × SquareColor) :=
  files.flatMap fun file =>
    ranks.map fun rank =>
      (String.mk [file, rank],
        if (files.indexOf file + ranks.indexOf rank) % 2 = 0 then
          SquareColor.dark
        else
          SquareColor.light)

/-- `const squareColors = generateSquareColors()`. -/
def squareColors : List (String × SquareColor) := generateSquareColors

/-- `getSquareColor`: lookup in the `squareColors` record. -/
def getSquareColor (square : String) : Option SquareColor :=
  (squareColors.lookup square)

/-- `Object.keys(squareColors)` — the 64 square names in insertion order;
this is the list `getRandomSquare` draws from. -/
def allSquares : List String := squareColors.map Prod.fst

/-- `getRandomSquare`: `squares[Math.floor(Math.random() * squares.length)]`,
with the draw modelled as `rng k % 64`. -/
def getRandomSquare (rng : ℕ → ℕ) (k : ℕ) : Option String :=
  allSquares.get? (rng k % allSquares.length)

/-- `String.fromCharCode(c.charCodeAt(0) + offset)`.  Offsets here are small
and the characters are ASCII, so plain integer arithmetic on the code point is
faithful; a would-be-negative code is clamped to `0` (the resulting character
fails the board-bounds check either way, exactly as in the source). -/
def charShift (c : Char) (offset : Int) : Char :=
  Char.ofNat ((c.toNat : Int) + offset).toNat

/-- The in-board test `newFile >= "a" && newFile <= "h" && newRank >= "1" &&
newRank <= "8"` used by both the knight and bishop branches. -/
def inBounds (file rank : Char) : Bool :=
  'a' ≤ file && file ≤ 'h' && '1' ≤ rank && rank ≤ '8'

/-- The `knightMoves` offset list of `getReachablePositions`. -/
def knightMoves : List (Int × Int) :=
  [(-2, -1), (-2, 1), (-1, -2), (-1, 2), (1, -2), (1, 2), (2, -1), (2, 1)]

/-- The `bishopMoves` direction list of `getReachablePositions`. -/
def bishopMoves : List (Int × Int) :=
  [(-1, -1), (-1, 1), (1, -1), (1, 1)]

/-- The bishop branch's inner `while` loop: starting at multiple `step` of the
direction `m`, keep pushing squares while they stay on the board.  The loop
moves one file per iteration so it runs at most 8 times from any on-board
start (and 0 times otherwise); `fuel = 8` therefore reproduces it exactly. -/
def bishopRay (file rank : Char) (m : Int × Int) : ℕ → ℕ → List String
  | _, 0 => []
  | step, fuel + 1 =>
    let newFile := charShift file (m.1 * step)
    let newRank := charShift rank (m.2 * step)
    if inBounds newFile newRank then
      String.mk [newFile, newRank] :: bishopRay file rank m (step + 1) fuel
    else
      []

/-- `getReachablePositions`: knight offsets filtered to the board, or bishop
diagonal rays extended until leaving the board.  `position.split("")`
destructured to `[file, rank]` is modelled by matching the first two
characters; a malformed position yields `[]`. -/
def getReachablePositions (piece : Piece) (position : String) : List String :=
  match position.data with
  | file :: rank :: _ =>
    match piece with
    | Piece.knight =>
      knightMoves.filterMap fun mv =>
        let newFile := charShift file mv.1
        let newRank := charShift rank mv.2
        if inBounds newFile newRank then
          some (String.mk [newFile, newRank])
        else
          none
    | Piece.bishop =>
      bishopMoves.flatMap fun mv => bishopRay file rank mv 1 8
  | _ => []

/-- `isReachable`: membership of `end` in `getReachablePositions(piece, start)`. -/
def isReachable (piece : Piece) (start finish : String) : Bool :=
  (getReachablePositions piece start).contains finish

/-- The outcome if-chain of the `evaluateGuess` action (source lines 189–198):
initialised to `"miss"` and overwritten by the three guarded branches. -/
def classify (isTarget : Bool) (userResponse : Option Response) : TrialOutcome :=
  if isTarget = true ∧ userResponse = some Response.matchResponse then
    TrialOutcome.hit
  else if isTarget = false ∧ userResponse = some Response.matchResponse then
    TrialOutcome.falseAlarm
  else if isTarget = false ∧ userResponse = none then
    TrialOutcome.correctRejection
  else
    TrialOutcome.miss

/-- One element of a round's `trials` array: `{stimulus, isTarget,
userResponse?, outcome?}`. -/
structure Trial where
  stimulus : String
  isTarget : Bool
  userResponse : Option Response
  outcome : Option TrialOutcome
deriving DecidableEq, Repr

/-- One value of the `RoundData` record: `{piecePositionForRound, trials}`. -/
structure RoundRec where
  piecePositionForRound : String
  trials : List Trial
deriving DecidableEq, Repr

/-- `RoundData = Record<number, {...}>`: a JS object keyed by round number.
Modelled as an association list in key-insertion order (the machine inserts
round numbers in increasing order, so this is also `Object.values` order). -/
abbrev RoundData : Type := List (ℕ × RoundRec)

/-- `context.roundData[n]`. -/
def lookupRound (rd : RoundData) (n : ℕ) : Option RoundRec :=
  (rd.lookup n)

/-- The spread-update `{...roundData, [n]: v}`: replaces the value at an
existing key in place, otherwise appends the new key. -/
def setRound (rd : RoundData) (n : ℕ) (v : RoundRec) : RoundData :=
  if (rd.filter fun p => p.1 = n).isEmpty then
    rd ++ [(n, v)]
  else
    rd.map fun p => if p.1 = n then (n, v) else p

/-- The two counters of `calculateAccuracyScore`'s nested loops:
`(totalTrials, correctResponses)` accumulated over every trial of every
round value: every trial record counts toward `totalTrials`, and those whose
`outcome` is `"hit"` or `"correctRejection"` also count toward
`correctResponses`. -/
def countTrials (rd : RoundData) : ℕ × ℕ :=
  rd.foldl
    (fun acc round =>
      round.2.trials.foldl
        (fun acc t =>
          (acc.1 + 1,
            if t.outcome = some TrialOutcome.hit ∨
                t.outcome = some TrialOutcome.correctRejection then
              acc.2 + 1
            else
              acc.2))
        acc)
    (0, 0)

/-- `calculateAccuracyScore` (source lines 502–524): `0` when there are no
trials, otherwise `Math.round((correct / total) * 10000) / 100`, with the
JS number arithmetic modelled over `ℚ` (`Mathlib`'s `round` on `ℚ` is
`⌊x + 1/2⌋`, the same rounding as `Math.round` for the nonnegative values
occurring here). -/
def calculateAccuracyScore (roundData : RoundData) : ℚ :=
  let counts := countTrials roundData
  if counts.1 = 0 then
    0
  else
    ((round (((counts.2 : ℚ) / (counts.1 : ℚ)) * 10000) : ℤ) : ℚ) / 100

/-- `getRandomArrayElement`: `array[Math.floor(Math.random() * array.length)]`,
with the draw modelled as index `rng k % array.length`; `none` for an empty
array (where JS would produce `undefined`). -/
def getRandomArrayElement (rng : ℕ → ℕ) (k : ℕ) (array : List String) :
    Option String :=
  array.get? (rng k % array.length)

/-- One draw of `generatePositionsForRound` together with its `while
(selectedPositions.includes(...))` retry loop: draw from `array`, and redraw
(consuming one more stream position) while the drawn element is already in
`selected`.  The source loop is unbounded, hence the fuel; `none` means the
modelled run exhausted its fuel (or drew from an empty array, where JS would
push `undefined`). -/
def pickFresh (rng : ℕ → ℕ) (k : ℕ) (array selected : List String) :
    ℕ → Option (String × ℕ)
  | 0 => none
  | fuel + 1 =>
    match getRandomArrayElement rng k array with
    | none => none
    | some c =>
      if selected.contains c then
        pickFresh rng (k + 1) array selected fuel
      else
        some (c, k + 1)

/-- The `for (let i = 0; i < roundLength; i++)` selection loop of
`generatePositionsForRound`: while `i < targetReachableCount` draw from the
reachable positions, afterwards draw from the full board
(`getRandomSquare`), always avoiding duplicates; each chosen square is pushed
onto `selected`.  Recursion is on the number of remaining iterations. -/
def selectLoop (rng : ℕ → ℕ) (fuel : ℕ) (reachable : List String)
    (targetCount : ℕ) : ℕ → ℕ → ℕ → List String → Option (List String × ℕ)
  | _, 0, k, selected => some (selected, k)
  | i, remaining + 1, k, selected =>
    let array := if i < targetCount then reachable else allSquares
    match pickFresh rng k array selected fuel with
    | none => none
    | some (c, k') =>
      selectLoop rng fuel reachable targetCount (i + 1) remaining k'
        (selected ++ [c])

/-- Swap the elements at positions `i` and `j` of a list (the destructuring
swap in `shuffleArray`); out-of-range indices leave the list unchanged. -/
def listSwap (l : List String) (i j : ℕ) : List String :=
  match l.get? i, l.get? j with
  | some a, some b => (l.set i b).set j a
  | _, _ => l

/-- The Fisher–Yates loop of `shuffleArray`: `for (i = length - 1; i > 0;
i--) { j = Math.floor(Math.random() * (i + 1)); swap i j }`.  The argument of
the recursion is the loop variable `i`. -/
def shuffleAux (rng : ℕ → ℕ) : ℕ → ℕ → List String → List String × ℕ
  | k, 0, l => (l, k)
  | k, i + 1, l => shuffleAux rng (k + 1) i (listSwap l (i + 1) (rng k % (i + 2)))

/-- `shuffleArray`. -/
def shuffleArray (rng : ℕ → ℕ) (k : ℕ) (l : List String) : List String × ℕ :=
  shuffleAux rng k (l.length - 1) l

/-- The target-ratio choice `Math.random() > 0.5 ? 0.6 : 0.4` followed by
`Math.floor(roundLength * ratio)`: the coin is modelled by the parity of one
stream draw, and the floor over exact arithmetic (`3n/5` resp. `2n/5` in `ℕ`;
for the machine's `roundLength = 5` this agrees with the double-precision
computation in the source). -/
def targetReachableCount (rng : ℕ → ℕ) (k : ℕ) (roundLength : ℕ) : ℕ :=
  if rng k % 2 = 1 then 3 * roundLength / 5 else 2 * roundLength / 5

/-- `generatePositionsForRound` (source lines 381–416): compute the reachable
positions, fix the target count, run the duplicate-avoiding selection loop,
and shuffle the result.  Returns the shuffled positions (the source also
returns `positiveSampleCount`, unused by every caller) and the advanced
stream cursor. -/
def generatePositionsForRound (rng : ℕ → ℕ) (k fuel : ℕ) (piece : Piece)
    (position : String) (roundLength : ℕ) : Option (List String × ℕ) :=
  let reachablePositions := getReachablePositions piece position
  let targetCount := targetReachableCount rng k roundLength
  match selectLoop rng fuel reachablePositions targetCount 0 roundLength
      (k + 1) [] with
  | none => none
  | some (selected, k') => some (shuffleArray rng k' selected)

/-- `NUMBER_OF_ROUNDS = 4`. -/
def NUMBER_OF_ROUNDS : ℕ := 4

/-- `TRIALS_PER_ROUND = 5`. -/
def TRIALS_PER_ROUND : ℕ := 5

/-- `GameContext`.  `score`, `guessesRemainingInRound`, `countdown` and
`incorrectCount` are JS numbers only ever produced by integer arithmetic;
`guessesRemainingInRound` and `countdown` are decremented, so they are
modelled as `ℤ`.  `accuracyScore` is a computed percentage, modelled as `ℚ`. -/
structure GameContext where
  currentSquare : Option String
  score : ℕ
  piecePositionForRound : String
  guessesRemainingInRound : ℤ
  voiceEnabled : Bool
  countdown : ℤ
  currentGuess : Option SquareColor
  incorrectCount : ℕ
  positionsForRound : List String
  currentRound : ℕ
  accuracyScore : Option ℚ
  roundData : RoundData
deriving DecidableEq, Repr

/-- The initial `context` of `createMachine` (source lines 250–262). -/
def initialContext : GameContext where
  currentSquare := none
  score := 0
  voiceEnabled := true
  countdown := 3
  positionsForRound := []
  guessesRemainingInRound := TRIALS_PER_ROUND
  piecePositionForRound := ""
  currentGuess := none
  incorrectCount := 0
  currentRound := 0
  accuracyScore := none
  roundData := []

/-- `array[i]` for a JS index that may be a negative number:
`undefined` (`none`) when negative or past the end. -/
def listAtInt (l : List Trial) (i : ℤ) : Option Trial :=
  if i < 0 then none else l.get? i.toNat

/-- `positionsForRound[i]` with the same JS indexing convention. -/
def posAtInt (l : List String) (i : ℤ) : Option String :=
  if i < 0 then none else l.get? i.toNat

/-- The `initialiseNextRound` action: pick a random origin square, generate
the round's positions, reset the per-round counters, increment the round
number and record the new round (each trial's `isTarget` recomputed via
`isReachable`) under key `currentRound + 1`.  `none` models the fuel-bounded
generator failing to terminate. -/
def initialiseNextRound (rng : ℕ → ℕ) (fuel : ℕ) (ctx : GameContext) (k : ℕ) :
    Option (GameContext × ℕ) :=
  (getRandomSquare rng k).bind fun piecePositionForRound =>
    (generatePositionsForRound rng (k + 1) fuel Piece.knight
        piecePositionForRound TRIALS_PER_ROUND).map fun p =>
      let positions := p.1
      ({ ctx with
            piecePositionForRound := piecePositionForRound
            guessesRemainingInRound := TRIALS_PER_ROUND
            positionsForRound := positions
            currentRound := ctx.currentRound + 1
            roundData :=
              setRound ctx.roundData (ctx.currentRound + 1)
                { piecePositionForRound := piecePositionForRound
                  trials :=
                    positions.map fun stimulus =>
                      { stimulus := stimulus
                        isTarget :=
                          isReachable Piece.knight piecePositionForRound
                            stimulus
                        userResponse := none
                        outcome := none } } },
          p.2)

/-- The `decrementGuessesRemainingInRound` action. -/
def decrementGuessesRemainingInRound (ctx : GameContext) : GameContext :=
  { ctx with guessesRemainingInRound := ctx.guessesRemainingInRound - 1 }

/-- The `setupNextTrial` action:
`currentSquare := positionsForRound[TRIALS_PER_ROUND - guessesRemainingInRound]`. -/
def setupNextTrial (ctx : GameContext) : GameContext :=
  { ctx with
      currentSquare :=
        posAtInt ctx.positionsForRound
          ((TRIALS_PER_ROUND : ℤ) - ctx.guessesRemainingInRound) }

/-- The `clearCurrentGuess` action. -/
def clearCurrentGuess (ctx : GameContext) : GameContext :=
  { ctx with currentGuess := none }

/-- The `saveUserResponse` action: read the current round and the current
trial and append (note: append, not replace) a copy of that trial with the
response recorded.  `none` models the JS failure paths (missing round data /
missing trial record), which no reachable machine configuration exercises. -/
def saveUserResponse (ctx : GameContext) (userResponse : Response) :
    Option GameContext :=
  (lookupRound ctx.roundData ctx.currentRound).bind fun currentRoundData =>
    (listAtInt currentRoundData.trials
        ((TRIALS_PER_ROUND : ℤ) - ctx.guessesRemainingInRound)).map
      fun currentTrial =>
        { ctx with
            roundData :=
              setRound ctx.roundData ctx.currentRound
                { currentRoundData with
                    trials :=
                      currentRoundData.trials ++
                        [{ currentTrial with userResponse := some userResponse }] } }

/-- The `evaluateGuess` action (source lines 174–214): read the current round
and the current trial, recompute `isTarget`, run the classification if-chain
(`classify`), and append (again: append, not replace) a copy of the trial
with the outcome recorded. -/
def evaluateGuess (ctx : GameContext) : Option GameContext :=
  (lookupRound ctx.roundData ctx.currentRound).bind fun currentRoundData =>
    (listAtInt currentRoundData.trials
        ((TRIALS_PER_ROUND : ℤ) - ctx.guessesRemainingInRound)).map
      fun currentTrial =>
        let isTarget :=
          isReachable Piece.knight currentRoundData.piecePositionForRound
            currentTrial.stimulus
        let outcome := classify isTarget currentTrial.userResponse
        { ctx with
            roundData :=
              setRound ctx.roundData ctx.currentRound
                { currentRoundData with
                    trials :=
                      currentRoundData.trials ++
                        [{ currentTrial with outcome := some outcome }] } }

/-- The `calculateAccuracyScore` assign action. -/
def calculateAccuracyScoreAction (ctx : GameContext) : GameContext :=
  { ctx with accuracyScore := some (calculateAccuracyScore ctx.roundData) }

/-- The `trackIncorrectGuess` action — defined in the source's action table
but referenced by no transition. -/
def trackIncorrectGuess (ctx : GameContext) : GameContext :=
  { ctx with incorrectCount := ctx.incorrectCount + 1 }

/-- The `decrementCountdown` action. -/
def decrementCountdown (ctx : GameContext) : GameContext :=
  { ctx with countdown := ctx.countdown - 1 }

/-- The `initialiseCountdown` action (`countdown := 3`). -/
def initialiseCountdown (ctx : GameContext) : GameContext :=
  { ctx with countdown := 3 }

/-- The `isHit` guard: `!!currentSquare && isReachable("knight",
piecePositionForRound, currentSquare)` (an absent `currentSquare` is falsy;
the square names in play are never the empty string). -/
def isHitGuard (ctx : GameContext) : Bool :=
  match ctx.currentSquare with
  | none => false
  | some sq => isReachable Piece.knight ctx.piecePositionForRound sq

/-- The machine's state configurations.  `startingRound`,
`waitingForResponse`, `hitFeedback` and `falseAlarmFeedback` are the leaf
states of the `playing` compound state (`hit` / `falseAlarm` renamed to avoid
clashing with the outcome constructors). -/
inductive MState where
  | idle
  | countdown
  | startingRound
  | waitingForResponse
  | hitFeedback
  | falseAlarmFeedback
  | gameOver
deriving DecidableEq, Repr

/-- The events the step function consumes: the five members of `GameEvent`
(the `userResponse` payload is always `"match"` and is omitted) plus
`elapsed`, which models the firing of `startingRound`'s `after: 3000`
delayed transition. -/
inductive MachineEvent where
  | start
  | userResponse
  | tick
  | restart
  | voiceToggle
  | elapsed
deriving DecidableEq, Repr

/-- A machine configuration: state, context, and the random-stream cursor. -/
structure Config where
  state : MState
  ctx : GameContext
  cursor : ℕ
deriving DecidableEq, Repr

/-- The initial configuration (`initial: "idle"`). -/
def initConfig : Config :=
  { state := MState.idle, ctx := initialContext, cursor := 0 }

/-- Which events each state configuration handles (has a transition for).
Per XState, an event with no transition in the current configuration is
silently discarded.  The `tick` transitions of `playingRound` are inherited
by all three of its leaf states; `userResponse` is handled only in
`waitingForResponse`. -/
def handles : MState → MachineEvent → Bool
  | MState.idle, MachineEvent.start => true
  | MState.idle, MachineEvent.voiceToggle => true
  | MState.countdown, MachineEvent.tick => true
  | MState.startingRound, MachineEvent.elapsed => true
  | MState.waitingForResponse, MachineEvent.userResponse => true
  | MState.waitingForResponse, MachineEvent.tick => true
  | MState.hitFeedback, MachineEvent.tick => true
  | MState.falseAlarmFeedback, MachineEvent.tick => true
  | MState.gameOver, MachineEvent.restart => true
  | _, _ => false

/-- Entry into `startingRound` (from `idle`'s `start`, from `countdown`
completion, or from the round-advancing `tick`): the entry action
`initialiseNextRound` runs (`announcePiecePosition` only produces speech). -/
def enterStartingRound (rng : ℕ → ℕ) (fuel : ℕ) (ctx : GameContext) (k : ℕ) :
    Option Config :=
  (initialiseNextRound rng fuel ctx k).map fun p =>
    { state := MState.startingRound, ctx := p.1, cursor := p.2 }

/-- The `userResponse` handler of `waitingForResponse`: both branches run
`saveUserResponse` then `evaluateGuess`; the `isHit` guard — evaluated on the
context as it was when the event arrived — only selects the feedback leaf
state (`hit` vs `falseAlarm`). -/
def waitingUserResponse (ctx : GameContext) (k : ℕ) : Option Config :=
  (saveUserResponse ctx Response.matchResponse).bind fun ctx1 =>
    (evaluateGuess ctx1).map fun ctx2 =>
      { state :=
          if isHitGuard ctx then MState.hitFeedback
          else MState.falseAlarmFeedback
        ctx := ctx2
        cursor := k }

/-- The `tick` handler of `playingRound` (source lines 307–330), shared by its
three leaf states.  Branches in source order, guards evaluated on the
context as it was when the event arrived:
1. more than one trial left: decrement the counter, `evaluateGuess`,
   `setupNextTrial`, `clearCurrentGuess` (`announceSquare` only speaks), and
   re-enter `waitingForResponse`;
2. otherwise, if the round counter has reached `NUMBER_OF_ROUNDS`: compute
   the accuracy score and go to `gameOver`;
3. otherwise re-enter `startingRound` (whose entry runs
   `initialiseNextRound`). -/
def playingRoundTick (rng : ℕ → ℕ) (fuel : ℕ) (ctx : GameContext) (k : ℕ) :
    Option Config :=
  if 1 < ctx.guessesRemainingInRound then
    (evaluateGuess (decrementGuessesRemainingInRound ctx)).map fun ctx2 =>
      { state := MState.waitingForResponse
        ctx := clearCurrentGuess (setupNextTrial ctx2)
        cursor := k }
  else if (NUMBER_OF_ROUNDS : ℕ) ≤ ctx.currentRound then
    some
      { state := MState.gameOver
        ctx := calculateAccuracyScoreAction ctx
        cursor := k }
  else
    enterStartingRound rng fuel ctx k

/-- One step of the session controller: the machine's transition table,
with entry actions folded into each transition's effect (entering
`startingRound` runs `initialiseNextRound`; entering `playingRound` runs
`setupNextTrial` and starts in `waitingForResponse`; the announce actions
only produce speech and never touch the context).  Events with no transition
in the current configuration leave it unchanged.  `none` models only the
fuel-bounded round generation failing to terminate (or the `undefined`
dereferences of `saveUserResponse` / `evaluateGuess`, which no reachable
configuration exercises). -/
def step (rng : ℕ → ℕ) (fuel : ℕ) (cfg : Config) (e : MachineEvent) :
    Option Config :=
  match cfg.state, e with
  | MState.idle, MachineEvent.start =>
    enterStartingRound rng fuel cfg.ctx cfg.cursor
  | MState.idle, MachineEvent.voiceToggle =>
    some { cfg with ctx := { cfg.ctx with voiceEnabled := !cfg.ctx.voiceEnabled } }
  | MState.countdown, MachineEvent.tick =>
    if cfg.ctx.countdown = 0 then
      enterStartingRound rng fuel (initialiseCountdown cfg.ctx) cfg.cursor
    else
      some { cfg with ctx := decrementCountdown cfg.ctx }
  | MState.startingRound, MachineEvent.elapsed =>
    some
      { state := MState.waitingForResponse
        ctx := setupNextTrial cfg.ctx
        cursor := cfg.cursor }
  | MState.waitingForResponse, MachineEvent.userResponse =>
    waitingUserResponse cfg.ctx cfg.cursor
  | MState.waitingForResponse, MachineEvent.tick =>
    playingRoundTick rng fuel cfg.ctx cfg.cursor
  | MState.hitFeedback, MachineEvent.tick =>
    playingRoundTick rng fuel cfg.ctx cfg.cursor
  | MState.falseAlarmFeedback, MachineEvent.tick =>
    playingRoundTick rng fuel cfg.ctx cfg.cursor
  | MState.gameOver, MachineEvent.restart =>
    some { cfg with state := MState.idle }
  | _, _ => some cfg

/-- Run a list of events through `step`. -/
def runEvents (rng : ℕ → ℕ) (fuel : ℕ) : Config → List MachineEvent → Option Config
  | cfg, [] => some cfg
  | cfg, e :: es =>
    match step rng fuel cfg e with
    | none => none
    | some cfg' => runEvents rng fuel cfg' es

/-- The configurations reachable from the initial one by any event sequence,
under any random stream and any fuel. -/
inductive Reachable : Config → Prop where
  | init : Reachable initConfig
  | step {cfg cfg' : Config} {rng : ℕ → ℕ} {fuel : ℕ} {e : MachineEvent} :
      Reachable cfg → step rng fuel cfg e = some cfg' → Reachable cfg'

/-! ## Spec-side comparison definitions -/

/-- A valid board square identifier: a file `a`–`h` followed by a rank
`1`–`8` (spec §3); the predicate coincides with the source's in-board test. -/
def validSquare (s : String) : Bool :=
  match s.data with
  | [file, rank] => inBounds file rank
  | _ => false

/-- The standard knight-move offset set as the spec words it (§4.1):
`(±1, ±2)` and `(±2, ±1)`. -/
def knightOffsetsSpec : List (Int × Int) :=
  [(1, 2), (1, -2), (-1, 2), (-1, -2), (2, 1), (2, -1), (-2, 1), (-2, -1)]

/-- The file/rank indices (0-based) of a square identifier, `none` for a
non-square. -/
def squareIndices (s : String) : Option (Int × Int) :=
  match s.data with
  | [file, rank] =>
    if file ∈ files ∧ rank ∈ ranks then
      some ((files.indexOf file : Int), (ranks.indexOf rank : Int))
    else
      none
  | _ => none

/-- The knight reachable set as the spec words it: the board squares lying at
one of the eight knight offsets from the origin (the offsets landing off the
board are filtered out by ranging over board squares only). -/
def knightReachableSpec (origin : String) : List String :=
  allSquares.filter fun target =>
    match squareIndices origin, squareIndices target with
    | some o, some t => decide ((t.1 - o.1, t.2 - o.2) ∈ knightOffsetsSpec)
    | _, _ => false

/-- All trial records of all rounds, in round order (the flattening implicit
in the accuracy-scorer's nested loops). -/
def flattenTrials (rd : RoundData) : List Trial :=
  rd.flatMap fun p => p.2.trials

/-- The trial records that have been classified (carry an outcome). -/
def classifiedCount (rd : RoundData) : ℕ :=
  (flattenTrials rd).countP fun t => t.outcome.isSome

/-- The trial records whose outcome is `hit` or `correctRejection`. -/
def correctCount (rd : RoundData) : ℕ :=
  (flattenTrials rd).countP fun t =>
    t.outcome = some TrialOutcome.hit ∨
      t.outcome = some TrialOutcome.correctRejection

/-- The accuracy score exactly as the spec words it (§4.4): 100 times the
hit/correct-rejection count divided by the number of *classified* trials,
rounded to two decimal places, and 0 when no trial is classified. -/
def accuracyScoreSpec (rd : RoundData) : ℚ :=
  if classifiedCount rd = 0 then
    0
  else
    ((round (((correctCount rd : ℚ) / (classifiedCount rd : ℚ)) * 10000) : ℤ) : ℚ)
      / 100

/-! ## C4: the outcome classification truth table -/

/-- **C4.**  The classification if-chain of `evaluateGuess` realises the
spec's signal-detection truth table exactly: `(isTarget, response)` maps
`(true, match) ↦ hit`, `(false, match) ↦ falseAlarm`,
`(false, none) ↦ correctRejection`, `(true, none) ↦ miss`.  Since `Response`
has the single value `"match"`, these four rows enumerate the whole domain,
so the table is exhaustive. -/
theorem classify_truth_table :
    classify true (some Response.matchResponse) = TrialOutcome.hit ∧
    classify false (some Response.matchResponse) = TrialOutcome.falseAlarm ∧
    classify false none = TrialOutcome.correctRejection ∧
    classify true none = TrialOutcome.miss := by
  decide

/-! ## C7: knight reachability geometry -/

/-- **C7.**  For every origin square, the source's knight reachable set is
duplicate-free and coincides (as a set) with the spec's description — the
board squares at the eight knight offsets from the origin; in particular from
`d4` it is exactly `{b3, b5, c2, c6, e2, e6, f3, f5}`. -/
theorem knight_reachable_exact :
    (∀ sq ∈ allSquares,
      (getReachablePositions Piece.knight sq).Nodup ∧
        (getReachablePositions Piece.knight sq).toFinset =
          (knightReachableSpec sq).toFinset) ∧
    (getReachablePositions Piece.knight "d4").toFinset =
      ({"b3", "b5", "c2", "c6", "e2", "e6", "f3", "f5"} : Finset String) := by
  decide

/-- Witness for `knight_reachable_exact` at the origin `d4`. -/
theorem knight_reachable_exact_witness :
    (getReachablePositions Piece.knight "d4").Nodup ∧
      (getReachablePositions Piece.knight "d4").toFinset =
        (knightReachableSpec "d4").toFinset :=
  knight_reachable_exact.1 "d4" (by decide)

/-! ## C3: the accuracy scorer -/

theorem countTrials_inner (trials : List Trial) (acc : ℕ × ℕ) :
    trials.foldl
        (fun acc t =>
          (acc.1 + 1,
            if t.outcome = some TrialOutcome.hit ∨
                t.outcome = some TrialOutcome.correctRejection then
              acc.2 + 1
            else
              acc.2))
        acc =
      (acc.1 + trials.length,
        acc.2 +
          trials.countP fun t =>
            t.outcome = some TrialOutcome.hit ∨
              t.outcome = some TrialOutcome.correctRejection) := by
  induction trials generalizing acc with
  | nil => simp
  | cons t ts ih =>
    simp only [List.foldl_cons, ih, List.countP_cons, List.length_cons]
    split <;> simp_all <;> omega

theorem countTrials_eq (rd : RoundData) :
    countTrials rd = ((flattenTrials rd).length, correctCount rd) := by
  unfold countTrials
  suffices h :
      ∀ acc : ℕ × ℕ,
        rd.foldl
            (fun acc round =>
              round.2.trials.foldl
                (fun acc t =>
                  (acc.1 + 1,
                    if t.outcome = some TrialOutcome.hit ∨
                        t.outcome = some TrialOutcome.correctRejection then
                      acc.2 + 1
                    else
                      acc.2))
                acc)
            acc =
          (acc.1 + (flattenTrials rd).length, acc.2 + correctCount rd) by
    simpa using h (0, 0)
  induction rd with
  | nil => intro acc; simp [flattenTrials, correctCount]
  | cons r rs ih =>
    intro acc
    rw [List.foldl_cons, countTrials_inner, ih]
    simp [flattenTrials, correctCount, List.countP_append]
    omega

/-- The concrete aggregate refuting C3 as stated: one round holding one
classified trial (a hit) and one unclassified trial. -/
def accuracyClaimCex : RoundData :=
  [(1,
    { piecePositionForRound := "d4"
      trials :=
        [{ stimulus := "b3"
           isTarget := true
           userResponse := some Response.matchResponse
           outcome := some TrialOutcome.hit },
         { stimulus := "a1"
           isTarget := false
           userResponse := none
           outcome := none }] })]

/-- **C3, counterexample.**  The source's scorer divides by the number of
*all* trial records, not by the number of *classified* trials: on a round
with one hit and one unclassified trial it returns `50`, while the claimed
formula (denominator = classified trials) gives `100`. -/
theorem accuracy_score_divides_by_all_records :
    calculateAccuracyScore accuracyClaimCex = 50 ∧
    accuracyScoreSpec accuracyClaimCex = 100 ∧
    calculateAccuracyScore accuracyClaimCex ≠ accuracyScoreSpec accuracyClaimCex := by
  have h1 : countTrials accuracyClaimCex = (2, 1) := by decide
  have h2 : classifiedCount accuracyClaimCex = 1 := by decide
  have h3 : correctCount accuracyClaimCex = 1 := by decide
  have hc : calculateAccuracyScore accuracyClaimCex = 50 := by
    simp only [calculateAccuracyScore, h1]
    norm_num
  have hs : accuracyScoreSpec accuracyClaimCex = 100 := by
    simp only [accuracyScoreSpec, h2, h3]
    norm_num
  refine ⟨hc, hs, ?_⟩
  rw [hc, hs]
  norm_num

/-- **C3, amended.**  `calculateAccuracyScore` returns 100 times the number
of hit / correct-rejection trials divided by the total number of *trial
records* across all rounds (classified or not), rounded to two decimal
places; it returns 0 when there are zero trial records, and its result always
lies in `[0, 100]`. -/
theorem accuracy_score_formula_and_bounds (rd : RoundData) :
    calculateAccuracyScore rd =
      (if (flattenTrials rd).length = 0 then 0
       else
        ((round
              (((correctCount rd : ℚ) / ((flattenTrials rd).length : ℚ)) *
                10000) : ℤ) : ℚ) / 100) ∧
    0 ≤ calculateAccuracyScore rd ∧ calculateAccuracyScore rd ≤ 100 := by
  have hformula :
      calculateAccuracyScore rd =
        (if (flattenTrials rd).length = 0 then 0
         else
          ((round
                (((correctCount rd : ℚ) / ((flattenTrials rd).length : ℚ)) *
                  10000) : ℤ) : ℚ) / 100) := by
    unfold calculateAccuracyScore
    rw [countTrials_eq]
  refine ⟨hformula, ?_⟩
  rw [hformula]
  by_cases hT : (flattenTrials rd).length = 0
  · simp [hT]
  · simp only [hT, if_false]
    have hTpos : (0 : ℚ) < ((flattenTrials rd).length : ℚ) := by
      exact_mod_cast Nat.pos_of_ne_zero hT
    have hCle : (correctCount rd : ℚ) ≤ ((flattenTrials rd).length : ℚ) := by
      exact_mod_cast List.countP_le_length _
    have hq0 : (0 : ℚ) ≤ (correctCount rd : ℚ) / ((flattenTrials rd).length : ℚ) :=
      div_nonneg (by positivity) (le_of_lt hTpos)
    have hq1 : (correctCount rd : ℚ) / ((flattenTrials rd).length : ℚ) ≤ 1 :=
      (div_le_one hTpos).mpr hCle
    set q : ℚ := (correctCount rd : ℚ) / ((flattenTrials rd).length : ℚ) with hqdef
    have hr0 : (0 : ℤ) ≤ round (q * 10000) := by
      rw [round_eq]
      rw [Int.le_floor]
      push_cast
      nlinarith
    have hr1 : round (q * 10000) ≤ (10000 : ℤ) := by
      rw [round_eq]
      have : (⌊q * 10000 + 1 / 2⌋ : ℤ) < 10001 := by
        rw [Int.floor_lt]
        push_cast
        nlinarith
      omega
    constructor
    · apply div_nonneg _ (by norm_num)
      exact_mod_cast hr0
    · rw [div_le_iff₀ (by norm_num)]
      have : ((round (q * 10000) : ℤ) : ℚ) ≤ ((10000 : ℤ) : ℚ) := by
        exact_mod_cast hr1
      calc ((round (q * 10000) : ℤ) : ℚ) ≤ 10000 := by exact_mod_cast hr1
        _ = 100 * 100 := by norm_num

/-! ## C6: the trial generator -/

theorem allSquares_valid : ∀ s ∈ allSquares, validSquare s = true := by
  decide

theorem bishopRay_valid (file rank : Char) (m : Int × Int) :
    ∀ (fuel steps : ℕ), ∀ s ∈ bishopRay file rank m steps fuel,
      validSquare s = true := by
  intro fuel
  induction fuel with
  | zero => intro steps s hs; simp [bishopRay] at hs
  | succ n ih =>
    intro steps s hs
    rw [bishopRay] at hs
    by_cases hb :
        inBounds (charShift file (m.1 * steps)) (charShift rank (m.2 * steps)) = true
    · rw [if_pos hb] at hs
      rcases List.mem_cons.mp hs with h | h
      · subst h
        exact hb
      · exact ih (steps + 1) s h
    · rw [if_neg hb] at hs
      simp at hs

theorem getReachablePositions_valid (piece : Piece) (position : String) :
    ∀ s ∈ getReachablePositions piece position, validSquare s = true := by
  intro s hs
  unfold getReachablePositions at hs
  rcases hdata : position.data with _ | ⟨file, rest⟩
  · rw [hdata] at hs
    simp at hs
  · rcases rest with _ | ⟨rank, rest'⟩
    · rw [hdata] at hs
      simp at hs
    · rw [hdata] at hs
      cases piece with
      | knight =>
        obtain ⟨mv, _, hmv⟩ := List.mem_filterMap.mp hs
        by_cases hb : inBounds (charShift file mv.1) (charShift rank mv.2) = true
        · rw [if_pos hb] at hmv
          cases hmv
          exact hb
        · rw [if_neg hb] at hmv
          cases hmv
      | bishop =>
        obtain ⟨mv, _, hmv⟩ := List.mem_flatMap.mp hs
        exact bishopRay_valid file rank mv 8 1 s hmv

theorem pickFresh_mem {rng : ℕ → ℕ} {array selected : List String} :
    ∀ {fuel k : ℕ} {c : String} {k' : ℕ},
      pickFresh rng k array selected fuel = some (c, k') →
      c ∈ array ∧ c ∉ selected := by
  intro fuel
  induction fuel with
  | zero => intro k c k' h; simp [pickFresh] at h
  | succ n ih =>
    intro k c k' h
    rw [pickFresh] at h
    split at h
    next => cases h
    next d hg =>
      split at h
      next hd => exact ih h
      next hd =>
        cases h
        exact ⟨List.get?_mem hg, by simpa using hd⟩

theorem selectLoop_spec {rng : ℕ → ℕ} {fuel : ℕ} {reachable : List String}
    {targetCount : ℕ}
    (hreach : ∀ s ∈ reachable, validSquare s = true) :
    ∀ (remaining i k : ℕ) (selected : List String) {out : List String} {k' : ℕ},
      selectLoop rng fuel reachable targetCount i remaining k selected =
          some (out, k') →
      selected.Nodup → (∀ s ∈ selected, validSquare s = true) →
      out.length = selected.length + remaining ∧ out.Nodup ∧
        ∀ s ∈ out, validSquare s = true := by
  intro remaining
  induction remaining with
  | zero =>
    intro i k selected out k' h hnd hval
    rw [selectLoop] at h
    cases h
    simpa using ⟨hnd, hval⟩
  | succ n ih =>
    intro i k selected out k' h hnd hval
    rw [selectLoop] at h
    cases hp : pickFresh rng k (if i < targetCount then reachable else allSquares)
        selected fuel with
    | none => rw [hp] at h; cases h
    | some p =>
      obtain ⟨c, k2⟩ := p
      rw [hp] at h
      obtain ⟨hcmem, hcnew⟩ := pickFresh_mem hp
      have hcval : validSquare c = true := by
        by_cases hi : i < targetCount
        · rw [if_pos hi] at hcmem
          exact hreach c hcmem
        · rw [if_neg hi] at hcmem
          exact allSquares_valid c hcmem
      have hnd' : (selected ++ [c]).Nodup := by
        rw [List.nodup_append]
        refine ⟨hnd, List.nodup_singleton c, ?_⟩
        intro a ha hac
        rcases List.mem_singleton.mp hac with rfl
        exact hcnew ha
      have hval' : ∀ s ∈ selected ++ [c], validSquare s = true := by
        intro s hsmem
        rcases List.mem_append.mp hsmem with hl | hr
        · exact hval s hl
        · rcases List.mem_singleton.mp hr with rfl
          exact hcval
      obtain ⟨hlen, hout⟩ := ih (i + 1) k2 (selected ++ [c]) h hnd' hval'
      refine ⟨?_, hout⟩
      rw [hlen]
      simp
      omega

theorem count_set {l : List String} :
    ∀ {i : ℕ} {a : String} (b c : String), l.get? i = some a →
      (l.set i b).count c + (if a = c then 1 else 0) =
        l.count c + (if b = c then 1 else 0) := by
  induction l with
  | nil => intro i a b c h; simp at h
  | cons x t ih =>
    intro i a b c h
    cases i with
    | zero =>
      rw [List.get?] at h
      cases h
      simp only [List.set, List.count_cons, beq_iff_eq]
      split_ifs <;> omega
    | succ n =>
      rw [List.get?] at h
      have hih := ih b c h
      simp only [List.set, List.count_cons, beq_iff_eq]
      split_ifs at hih ⊢ <;> omega

theorem listSwap_perm (l : List String) (i j : ℕ) : (listSwap l i j).Perm l := by
  unfold listSwap
  cases hi : l.get? i with
  | none => exact List.Perm.refl l
  | some a =>
    cases hj : l.get? j with
    | none => exact List.Perm.refl l
    | some b =>
      show ((l.set i b).set j a).Perm l
      rw [List.perm_iff_count]
      intro c
      have h2 : (l.set i b).get? j = some b := by
        by_cases hij : i = j
        · subst hij
          rw [List.get?_set_eq, hi]
          rfl
        · rw [List.get?_set_ne _ _ hij, hj]
      have h1 := count_set b c hi
      have h3 := count_set a c h2
      split_ifs at h1 h3 <;> omega

theorem shuffleAux_perm (rng : ℕ → ℕ) :
    ∀ (i k : ℕ) (l : List String), ((shuffleAux rng k i l).1).Perm l := by
  intro i
  induction i with
  | zero => intro k l; exact List.Perm.refl l
  | succ n ih =>
    intro k l
    rw [shuffleAux]
    exact (ih (k + 1) (listSwap l (n + 1) (rng k % (n + 2)))).trans
      (listSwap_perm l (n + 1) (rng k % (n + 2)))

theorem shuffleArray_perm (rng : ℕ → ℕ) (k : ℕ) (l : List String) :
    ((shuffleArray rng k l).1).Perm l :=
  shuffleAux_perm rng (l.length - 1) k l

/-- **C6.**  Whenever `generatePositionsForRound` returns (the modelled run
terminates — the source's retry loop has no termination guarantee of its own,
spec §7), the returned sequence has exactly `roundLength` elements, contains
no duplicate squares, and every element is a valid board square identifier;
stated under the claim's precondition that the reachable set of
`(piece, origin)` has at least as many distinct elements as the chosen
target count `⌊roundLength · fraction⌋`, `fraction ∈ {0.4, 0.6}`. -/
theorem generatePositions_spec (rng : ℕ → ℕ) (k fuel : ℕ) (piece : Piece)
    (origin : String) (roundLength : ℕ) (out : List String) (k' : ℕ)
    (hcount :
      targetReachableCount rng k roundLength ≤
        (getReachablePositions piece origin).dedup.length)
    (hrun :
      generatePositionsForRound rng k fuel piece origin roundLength =
        some (out, k')) :
    out.length = roundLength ∧ out.Nodup ∧ ∀ s ∈ out, validSquare s = true := by
  rw [generatePositionsForRound] at hrun
  cases hsel : selectLoop rng fuel (getReachablePositions piece origin)
      (targetReachableCount rng k roundLength) 0 roundLength (k + 1) [] with
  | none =>
    simp only [hsel] at hrun
    exact Option.noConfusion hrun
  | some p =>
    obtain ⟨selected, k2⟩ := p
    simp only [hsel] at hrun
    obtain ⟨hlen, hnd, hval⟩ :=
      selectLoop_spec (getReachablePositions_valid piece origin) roundLength 0
        (k + 1) [] hsel List.nodup_nil (by simp)
    have hshuffle : shuffleArray rng k2 selected = (out, k') :=
      Option.some.inj hrun
    have hperm : out.Perm selected := by
      have hp := shuffleArray_perm rng k2 selected
      rw [hshuffle] at hp
      exact hp
    refine ⟨?_, ?_, ?_⟩
    · rw [hperm.length_eq, hlen]
      simp
    · exact hperm.nodup_iff.mpr hnd
    · intro s hs
      exact hval s (hperm.mem_iff.mp hs)

/-- Witness for `generatePositions_spec`: a concrete terminating run (stream
`n ↦ n`, fuel 100, knight on `d4`, round length 5). -/
theorem generatePositions_spec_witness :
    (["b5", "a6", "a4", "a5", "c2"] : List String).length = 5 ∧
    (["b5", "a6", "a4", "a5", "c2"] : List String).Nodup ∧
    ∀ s ∈ (["b5", "a6", "a4", "a5", "c2"] : List String), validSquare s = true :=
  generatePositions_spec (fun n => n) 0 100 Piece.knight "d4" 5
    ["b5", "a6", "a4", "a5", "c2"] 10 (by decide) (by decide)

/-! ## Concrete session traces (C1, C2, C5)

A fixed random stream under which every round generation of a four-round
session terminates, and the event sequences of a full session driven purely
by the timer (the subject never responds): `start`, then per round the
`after(3000)` delayed transition followed by the five response-window ticks.
Under `sessionRng` the first round's origin is `a8` and its stimulus sequence
is `c7, h4, b6, c6, b1` (with `c7` and `b6` targets). -/

def sessionRng : ℕ → ℕ := fun n => 13 * n + 7

def roundEvents : List MachineEvent :=
  [MachineEvent.elapsed, MachineEvent.tick, MachineEvent.tick,
   MachineEvent.tick, MachineEvent.tick, MachineEvent.tick]

def fullSessionEvents : List MachineEvent :=
  MachineEvent.start :: (List.replicate NUMBER_OF_ROUNDS roundEvents).flatten

/-! ## C1: exactly-once outcome assignment -/

/-- **C1, refuting evaluation.**  Running a complete timer-driven session:
the machine does reach `gameOver`, but in round 1 the trial record of the
first displayed stimulus still carries *no* outcome (its response window
closed at the first tick), and only 4 of the round's 9 trial records carry an
outcome at all — `evaluateGuess` appends classified copies instead of
updating the 5 original trial records, and the first trial of a round is
never classified on timeout.  This refutes "at session end every trial
record of every round carries exactly one outcome". -/
theorem trial_left_unclassified :
    (runEvents sessionRng 100 initConfig fullSessionEvents).map
        (fun cfg =>
          (cfg.state,
            (lookupRound cfg.ctx.roundData 1).map fun rd =>
              ((rd.trials.get? 0).map Trial.outcome,
                rd.trials.length,
                (rd.trials.filter fun t => t.outcome.isSome).length))) =
      some (MState.gameOver, some (some none, 9, 4)) := by
  decide

/-! ## C2: which trial a tick classifies -/

/-- **C2, refuting evaluation.**  After `start`, the pre-round delay and the
*first* tick of round 1: the previously displayed trial (the round's first
stimulus, `c7`) should have been classified, but the outcome record appended
by the tick handler is for `h4` — the trial the tick just advanced *to*
(`currentSquare` after the tick is also `h4`), classified at display time
with its necessarily-absent response, while the records for `c7` carry no
outcome.  The handler decrements the remaining-count *before* computing
`TRIALS_PER_ROUND - guessesRemainingInRound`, so it classifies the next
trial, not the previous one. -/
theorem tick_classifies_newly_displayed_trial :
    (runEvents sessionRng 100 initConfig
          [MachineEvent.start, MachineEvent.elapsed, MachineEvent.tick]).map
        (fun cfg =>
          (cfg.ctx.positionsForRound.get? 0,
            cfg.ctx.positionsForRound.get? 1,
            cfg.ctx.currentSquare,
            (lookupRound cfg.ctx.roundData 1).map fun rd =>
              ((rd.trials.get? 5).map fun t => (t.stimulus, t.outcome),
                (rd.trials.filter fun t =>
                    t.stimulus = "c7" && t.outcome.isSome).length))) =
      some
        (some "c7", some "h4", some "h4",
          some (some ("h4", some TrialOutcome.correctRejection), 0)) := by
  rfl

/-! ## C5: restart -/

/-- **C5, refuting evaluation.**  `restart` in `gameOver` is a bare
transition with no actions, so the context survives: after a full session
and a `restart`, the machine is back in `idle` but `currentRound` is still
4 (initial value: 0), all four round records are still present and the
accuracy score is still set — the context is *not* reset to its initial
values. -/
theorem restart_does_not_reset_context :
    (runEvents sessionRng 100 initConfig
          (fullSessionEvents ++ [MachineEvent.restart])).map
        (fun cfg =>
          (cfg.state, cfg.ctx.currentRound, cfg.ctx.roundData.length,
            cfg.ctx.accuracyScore.isSome)) =
      some (MState.idle, 4, 4, true) := by
  decide

/-! ## C8: events with no transition in the current state -/

/-- **C8.**  An event that is not legal in the current state configuration
(no transition for it, per `handles`) is silently discarded: the step
function returns the configuration unchanged — same state, same context —
for every context, random stream and fuel.  In particular `userResponse` in
`idle` is such an event. -/
theorem illegal_event_ignored (rng : ℕ → ℕ) (fuel : ℕ) (cfg : Config)
    (e : MachineEvent) (h : handles cfg.state e = false) :
    step rng fuel cfg e = some cfg := by
  obtain ⟨s, ctx, k⟩ := cfg
  cases s <;> cases e <;> simp_all [handles, step]

/-- Witness for `illegal_event_ignored`: `userResponse` sent in the initial
(`idle`) configuration leaves it unchanged. -/
theorem illegal_event_ignored_witness :
    step (fun _ => 0) 0 initConfig MachineEvent.userResponse = some initConfig :=
  illegal_event_ignored (fun _ => 0) 0 initConfig MachineEvent.userResponse
    (by decide)

/-! ## C9: the countdown state is dead -/

theorem initialiseNextRound_preserves {rng : ℕ → ℕ} {fuel : ℕ}
    {ctx ctx' : GameContext} {k k' : ℕ}
    (h : initialiseNextRound rng fuel ctx k = some (ctx', k')) :
    ctx'.score = ctx.score ∧ ctx'.incorrectCount = ctx.incorrectCount := by
  obtain ⟨sq, _, h2⟩ := Option.bind_eq_some.mp h
  obtain ⟨p, _, h3⟩ := Option.map_eq_some'.mp h2
  cases h3
  exact ⟨rfl, rfl⟩

theorem saveUserResponse_preserves {ctx ctx' : GameContext} {r : Response}
    (h : saveUserResponse ctx r = some ctx') :
    ctx'.score = ctx.score ∧ ctx'.incorrectCount = ctx.incorrectCount := by
  obtain ⟨rd, _, h2⟩ := Option.bind_eq_some.mp h
  obtain ⟨t, _, h3⟩ := Option.map_eq_some'.mp h2
  cases h3
  exact ⟨rfl, rfl⟩

theorem evaluateGuess_preserves {ctx ctx' : GameContext}
    (h : evaluateGuess ctx = some ctx') :
    ctx'.score = ctx.score ∧ ctx'.incorrectCount = ctx.incorrectCount := by
  obtain ⟨rd, _, h2⟩ := Option.bind_eq_some.mp h
  obtain ⟨t, _, h3⟩ := Option.map_eq_some'.mp h2
  cases h3
  exact ⟨rfl, rfl⟩

theorem enterStartingRound_spec {rng : ℕ → ℕ} {fuel : ℕ} {ctx : GameContext}
    {k : ℕ} {cfg' : Config} (h : enterStartingRound rng fuel ctx k = some cfg') :
    cfg'.state = MState.startingRound ∧ cfg'.ctx.score = ctx.score ∧
      cfg'.ctx.incorrectCount = ctx.incorrectCount := by
  obtain ⟨p, hp, rfl⟩ := Option.map_eq_some'.mp h
  have hpre : p.1.score = ctx.score ∧ p.1.incorrectCount = ctx.incorrectCount :=
    initialiseNextRound_preserves hp
  exact ⟨rfl, hpre.1, hpre.2⟩

theorem waitingUserResponse_spec {ctx : GameContext} {k : ℕ} {cfg' : Config}
    (h : waitingUserResponse ctx k = some cfg') :
    (cfg'.state = MState.hitFeedback ∨ cfg'.state = MState.falseAlarmFeedback) ∧
      cfg'.ctx.score = ctx.score ∧
      cfg'.ctx.incorrectCount = ctx.incorrectCount := by
  obtain ⟨ctx1, h1, h2⟩ := Option.bind_eq_some.mp h
  obtain ⟨ctx2, h3, rfl⟩ := Option.map_eq_some'.mp h2
  have p1 := saveUserResponse_preserves h1
  have p2 := evaluateGuess_preserves h3
  refine ⟨?_, p2.1.trans p1.1, p2.2.trans p1.2⟩
  by_cases hg : isHitGuard ctx <;> simp [hg]

theorem playingRoundTick_spec {rng : ℕ → ℕ} {fuel : ℕ} {ctx : GameContext}
    {k : ℕ} {cfg' : Config} (h : playingRoundTick rng fuel ctx k = some cfg') :
    (cfg'.state = MState.waitingForResponse ∨ cfg'.state = MState.gameOver ∨
        cfg'.state = MState.startingRound) ∧
      cfg'.ctx.score = ctx.score ∧
      cfg'.ctx.incorrectCount = ctx.incorrectCount := by
  unfold playingRoundTick at h
  split at h
  · obtain ⟨ctx2, h1, rfl⟩ := Option.map_eq_some'.mp h
    have p := evaluateGuess_preserves h1
    refine ⟨Or.inl rfl, ?_, ?_⟩
    · simpa [clearCurrentGuess, setupNextTrial,
        decrementGuessesRemainingInRound] using p.1
    · simpa [clearCurrentGuess, setupNextTrial,
        decrementGuessesRemainingInRound] using p.2
  · split at h
    · cases h
      exact ⟨Or.inr (Or.inl rfl), rfl, rfl⟩
    · have hs := enterStartingRound_spec h
      exact ⟨Or.inr (Or.inr hs.1), hs.2.1, hs.2.2⟩

theorem step_state_ne_countdown {rng : ℕ → ℕ} {fuel : ℕ} {cfg cfg' : Config}
    {e : MachineEvent} (h : step rng fuel cfg e = some cfg')
    (hne : cfg.state ≠ MState.countdown) : cfg'.state ≠ MState.countdown := by
  obtain ⟨s, ctx, k⟩ := cfg
  cases s <;> cases e <;> simp only [step] at h
  all_goals try (cases h; first | exact absurd rfl hne | simp)
  case idle.start =>
    rw [(enterStartingRound_spec h).1]
    decide
  case countdown.tick =>
    exact absurd rfl hne
  case waitingForResponse.userResponse =>
    rcases (waitingUserResponse_spec h).1 with h1 | h1 <;> rw [h1] <;> decide
  all_goals
    rcases (playingRoundTick_spec h).1 with h1 | h1 | h1 <;> rw [h1] <;> decide

/-- **C9.**  The `countdown` state is dead code: `start` in `idle` targets the
`playing` region directly (its first leaf, `startingRound`), no transition
targets `countdown`, and consequently no reachable configuration of the
machine is in `countdown` — its tick-driven decrement logic never runs. -/
theorem countdown_never_active :
    (∀ cfg : Config, Reachable cfg → cfg.state ≠ MState.countdown) ∧
    (∀ (rng : ℕ → ℕ) (fuel : ℕ) (ctx : GameContext) (k : ℕ) (cfg' : Config),
      step rng fuel ⟨MState.idle, ctx, k⟩ MachineEvent.start = some cfg' →
      cfg'.state = MState.startingRound) := by
  constructor
  · intro cfg h
    induction h with
    | init => simp [initConfig]
    | step _ hstep ih => exact step_state_ne_countdown hstep ih
  · intro rng fuel ctx k cfg' h
    simp only [step] at h
    exact (enterStartingRound_spec h).1

/-- Witness for `countdown_never_active` at the initial configuration. -/
theorem countdown_never_active_witness :
    initConfig.state ≠ MState.countdown :=
  countdown_never_active.1 initConfig Reachable.init

/-! ## C10: `score` and `incorrectCount` are never written -/

theorem step_preserves_counters {rng : ℕ → ℕ} {fuel : ℕ} {cfg cfg' : Config}
    {e : MachineEvent} (h : step rng fuel cfg e = some cfg') :
    cfg'.ctx.score = cfg.ctx.score ∧
      cfg'.ctx.incorrectCount = cfg.ctx.incorrectCount := by
  obtain ⟨s, ctx, k⟩ := cfg
  cases s <;> cases e <;> simp only [step] at h
  all_goals try (cases h; exact ⟨rfl, rfl⟩)
  case idle.start =>
    exact (enterStartingRound_spec h).2
  case countdown.tick =>
    split at h
    · have hs := (enterStartingRound_spec h).2
      simpa [initialiseCountdown] using hs
    · cases h
      exact ⟨rfl, rfl⟩
  case waitingForResponse.userResponse =>
    exact (waitingUserResponse_spec h).2
  all_goals
    exact (playingRoundTick_spec h).2

/-- **C10.**  In every reachable configuration, the context fields `score`
and `incorrectCount` still hold their initial value 0: no transition of the
machine invokes an action writing `score`, and `trackIncorrectGuess` — the
only action incrementing `incorrectCount` — is defined but referenced by no
transition. -/
theorem score_and_incorrectCount_stay_zero (cfg : Config)
    (h : Reachable cfg) :
    cfg.ctx.score = 0 ∧ cfg.ctx.incorrectCount = 0 := by
  induction h with
  | init => exact ⟨rfl, rfl⟩
  | step _ hstep ih =>
    have hp := step_preserves_counters hstep
    exact ⟨hp.1.trans ih.1, hp.2.trans ih.2⟩

/-- Witness for `score_and_incorrectCount_stay_zero` at the initial
configuration. -/
theorem score_and_incorrectCount_stay_zero_witness :
    initConfig.ctx.score = 0 ∧ initConfig.ctx.incorrectCount = 0 :=
  score_and_incorrectCount_stay_zero initConfig Reachable.init

end GameMachine
